import Mathlib

/-!
Verification of the package-check policy gate
(`anchore_engine/services/policy_engine/engine/policy/gates/check_package_info.py`)
against its specification.

We embed the two triggers of the `PKGCHECK` gate:

* `VerifyTrigger` — file-integrity verification of installed packages against
  their package-db manifest entries (`_diff_pkg_meta_and_file` and the
  `evaluate` loop), and
* `PkgNotPresentTrigger` — required-package presence/version enforcement with
  exact (`PKGFULLMATCH`), name-only (`PKGNAMEMATCH`) and minimum-version
  (`PKGVERSMATCH`) specifications.

Python conventions modelled explicitly:

* optional record fields are `Option` values; Python truthiness of a string is
  "not `None` and not empty", of an integer "not `None` and not zero";
* the source runs on Python 2, so `oct n` renders a nonzero number as a `'0'`
  followed by its octal digits, and `oct 0` as `"0"`;
* `int(None)` raises `TypeError`; fallible computations return `Except Unit`.
-/

namespace CheckPackageInfo

/-- A filesystem record from image analysis (`fs_entry` dict in
`_diff_pkg_meta_and_file`); every key access goes through `.get`, so each
field is optional. -/
structure FSEntry where
  name : Option String
  entry_type : Option String
  sha256_checksum : Option String
  md5_checksum : Option String
  sha1_checksum : Option String
  mode : Option Nat
  size : Option Nat
deriving DecidableEq, Repr

/-- An `ImagePackageManifestEntry` row: the package db's expected metadata for
one file.  Optional columns are `Option`; `is_config_file` is the boolean
exemption flag. -/
structure ManifestEntry where
  file_path : String
  digest_algorithm : Option String
  digest : Option String
  mode : Option Nat
  size : Option Nat
  is_config_file : Bool
deriving DecidableEq, Repr

/-- An `ImagePackage` row with the fields the two triggers read. -/
structure Package where
  name : String
  version : String
  fullversion : String
  flavor : String
  pkg_db_entries : List ManifestEntry
deriving DecidableEq, Repr

/-- The image view used by the triggers: `image_obj.fs.files` as a path-keyed
mapping (empty when no filesystem scan exists) and the installed packages. -/
structure Image where
  fs_files : List (String × FSEntry)
  packages : List Package
deriving DecidableEq, Repr

/-- `extracted_files_json.get(path)`: lookup of the filesystem record for a
path.  A record exists for a path at most once. -/
def filesGet (files : List (String × FSEntry)) (path : String) : Option FSEntry :=
  (files.find? (fun e => e.1 = path)).map Prod.snd

/-- Python truthiness of an optional string: `None` and `""` are falsy. -/
def truthyStr (s : Option String) : Bool :=
  match s with
  | none => false
  | some v => v ≠ ""

/-- Python truthiness of an optional integer: `None` and `0` are falsy. -/
def truthyNat (n : Option Nat) : Bool :=
  match n with
  | none => false
  | some v => v ≠ 0

/-- `VerifyTrigger.VerificationStates`. -/
inductive VState where
  | changed
  | missing
deriving DecidableEq, Repr

/-- The `.value` of a verification state. -/
def VState.value : VState → String
  | .changed => "changed"
  | .missing => "missing"

/-- Python 2 `oct`: `oct(0) = "0"` and otherwise a leading `'0'` followed by
the octal digits, as a character list. -/
def pyOct (n : Nat) : List Char :=
  if n = 0 then ['0'] else '0' :: Nat.toDigits 8 n

/-- Python slice `l[-k:]` for `0 < k ≤ l.length`: the last `k` characters. -/
def lastChars (l : List Char) (k : Nat) : List Char :=
  l.drop (l.length - k)

/-- The mode comparison of `_diff_pkg_meta_and_file` (lines 129-139): render
both modes in octal, trim the longer string to the length of the shorter by
keeping its trailing characters, and test the trimmed strings for inequality. -/
def modeCmpNe (dbMode fsMode : Nat) : Bool :=
  let oct_db_mode := pyOct dbMode
  let oct_fs_mode := pyOct fsMode
  if oct_db_mode.length < oct_fs_mode.length then
    oct_db_mode ≠ lastChars oct_fs_mode oct_db_mode.length
  else if oct_db_mode.length > oct_fs_mode.length then
    lastChars oct_db_mode oct_fs_mode.length ≠ oct_fs_mode
  else
    oct_db_mode ≠ oct_fs_mode

/-- The observed checksum matching the entry's `digest_algorithm`
(lines 114-120): `sha256`/`md5`/`sha1` select the corresponding field,
anything else leaves `fs_digest = None`. -/
def fsDigestFor (meta : ManifestEntry) (f : FSEntry) : Option String :=
  if meta.digest_algorithm = some "sha256" then f.sha256_checksum
  else if meta.digest_algorithm = some "md5" then f.md5_checksum
  else if meta.digest_algorithm = some "sha1" then f.sha1_checksum
  else none

/-- The checksum block (lines 113-123): only for `entry_type = "file"`, and
only when both the expected digest and the observed digest of the matching
algorithm are truthy and differ. -/
def checksumChanged (meta : ManifestEntry) (f : FSEntry) : Bool :=
  f.entry_type = some "file" &&
    (truthyStr meta.digest && truthyStr (fsDigestFor meta f) &&
      fsDigestFor meta f ≠ meta.digest)

/-- The mode block (lines 126-140): only for `entry_type` `"file"` or `"dir"`,
only when both modes are truthy, using the octal trailing comparison. -/
def modeChanged (meta : ManifestEntry) (f : FSEntry) : Bool :=
  (f.entry_type = some "file" || f.entry_type = some "dir") &&
    (match meta.mode, f.mode with
     | some dm, some fm => dm ≠ 0 && fm ≠ 0 && modeCmpNe dm fm
     | _, _ => false)

/-- The size block (lines 142-147).  `fs_size = int(fs_entry.get('size'))`
raises `TypeError` when the record has no size, before the truthiness guard
runs; otherwise a changed classification needs both sizes truthy and
different. -/
def sizeCheck (meta : ManifestEntry) (f : FSEntry) : Except Unit (Option VState) :=
  if f.entry_type = some "file" then
    match f.size with
    | none => Except.error ()
    | some fs_size =>
      if fs_size ≠ 0 && truthyNat meta.size && meta.size ≠ some fs_size then
        Except.ok (some VState.changed)
      else
        Except.ok none
  else
    Except.ok none

/-- `VerifyTrigger._diff_pkg_meta_and_file`: `none` models Python `False`
(no diff), and the manifest entry is always a live db row (truthy).  Checks
run in source order: missing record, name mismatch, config-file exemption,
checksum, mode, size. -/
def diffPkgMetaAndFile (meta : ManifestEntry) (fs : Option FSEntry) :
    Except Unit (Option VState) :=
  match fs with
  | none => Except.ok (some VState.missing)
  | some f =>
    if f.name ≠ some meta.file_path then Except.ok none
    else if meta.is_config_file then Except.ok none
    else if checksumChanged meta f then Except.ok (some VState.changed)
    else if modeChanged meta f then Except.ok (some VState.changed)
    else sizeCheck meta f

/-- A fired `VERIFY` violation: the message names the package, the entry's
file path and the classification's `.value`. -/
structure VViol where
  pkg : String
  path : String
  status : String
deriving DecidableEq, Repr

/-- Python `str.startswith(d)` on the underlying character lists. -/
def pyStartswith : List Char → List Char → Bool
  | [], _ => true
  | _ :: _, [] => false
  | c :: cs, x :: xs => c = x && pyStartswith cs xs

/-- The `DIRS` filtering of a package's manifest entries (lines 51-56): with
prefixes given, concatenate per-prefix `startswith` filters — an entry is
visited once per prefix that matches it; otherwise all entries. -/
def selectRecords (pkg_dirs : List String) (entries : List ManifestEntry) :
    List ManifestEntry :=
  if pkg_dirs = [] then entries
  else pkg_dirs.foldl
    (fun rs d => rs ++ entries.filter (fun e => pyStartswith d.data e.file_path.data)) []

/-- The `PKGS` filtering of the installed packages (lines 43-46). -/
def selectedPkgs (image : Image) (pkg_names : List String) : List Package :=
  if pkg_names = [] then image.packages
  else image.packages.filter (fun p => decide (p.name ∈ pkg_names))

/-- The inner loop of `VerifyTrigger.evaluate` (lines 58-62) over one
package's selected manifest entries: diff each entry against the filesystem
record at its path and fire when the status is a state whose value passes the
`CHECK_ONLY` filter.  A `TypeError` from the diff aborts the evaluation. -/
def verifyRecords (files : List (String × FSEntry)) (checks : List String)
    (pkgName : String) : List ManifestEntry → Except Unit (List VViol)
  | [] => Except.ok []
  | r :: rs =>
    match diffPkgMetaAndFile r (filesGet files r.file_path) with
    | Except.error e => Except.error e
    | Except.ok status =>
      match verifyRecords files checks pkgName rs with
      | Except.error e => Except.error e
      | Except.ok rest =>
        Except.ok
          ((match status with
            | some st =>
              if checks = [] ∨ st.value ∈ checks then [⟨pkgName, r.file_path, st.value⟩]
              else []
            | none => []) ++ rest)

/-- The outer loop of `VerifyTrigger.evaluate` (lines 48-62) over the selected
packages. -/
def verifyPkgs (files : List (String × FSEntry)) (checks : List String)
    (pkg_dirs : List String) : List Package → Except Unit (List VViol)
  | [] => Except.ok []
  | p :: ps =>
    match verifyRecords files checks p.name (selectRecords pkg_dirs p.pkg_db_entries) with
    | Except.error e => Except.error e
    | Except.ok here =>
      match verifyPkgs files checks pkg_dirs ps with
      | Except.error e => Except.error e
      | Except.ok rest => Except.ok (here ++ rest)

/-- Python `str.lower` on one character, for the ASCII policy tokens the
`CHECK_ONLY` parameter carries. -/
def pyLowerChar (c : Char) : Char :=
  if 'A' ≤ c ∧ c ≤ 'Z' then Char.ofNat (c.toNat + 32) else c

/-- Python `str.lower` (ASCII range). -/
def pyLower (s : String) : String :=
  ⟨s.data.map pyLowerChar⟩

/-- `VerifyTrigger.evaluate`: parameters arrive as parsed token lists;
`CHECK_ONLY` tokens are lowercased (line 32). -/
def evaluateVerify (image : Image) (pkg_names pkg_dirs checksRaw : List String) :
    Except Unit (List VViol) :=
  verifyPkgs image.fs_files (checksRaw.map pyLower) pkg_dirs
    (selectedPkgs image pkg_names)

/-- The violations one record contributes in an evaluation that does not
raise: the pure content of one iteration of `verifyRecords`. -/
def emitRecord (files : List (String × FSEntry)) (checks : List String)
    (pkgName : String) (r : ManifestEntry) : List VViol :=
  match diffPkgMetaAndFile r (filesGet files r.file_path) with
  | Except.ok (some st) =>
    if checks = [] ∨ st.value ∈ checks then [⟨pkgName, r.file_path, st.value⟩] else []
  | _ => []

/-- The (package name, file path) pairs a `VERIFY` evaluation visits, in
order. -/
def verifyPairs (image : Image) (pkg_names pkg_dirs : List String) :
    List (String × String) :=
  (selectedPkgs image pkg_names).flatMap
    (fun p => (selectRecords pkg_dirs p.pkg_db_entries).map (fun r => (p.name, r.file_path)))

/-! ### PkgNotPresentTrigger -/

/-- A fired `PKGNOTPRESENT` violation, one constructor per `_fire` site with
the data its message interpolates. -/
inductive PViol where
  | wrongVersion (name installed required : String)
  | belowMin (name installed required : String)
  | notPresentFull (name version : String)
  | notPresentVer (name version : String)
  | notPresentName (name : String)
deriving DecidableEq, Repr

/-- Python `dict` lookup on an association list with unique keys. -/
def dictGet (d : List (String × String)) (k : String) : Option String :=
  (d.find? (fun e => e.1 = k)).map Prod.snd

/-- Python `dict.pop` on an association list with unique keys. -/
def dictPop (d : List (String × String)) (k : String) : List (String × String) :=
  d.filter (fun e => e.1 ≠ k)

/-- The distro-aware version comparator
(`compare_package_versions(flavor, name_a, version_a, name_b, version_b)`).
Modelled from the spec: the implementation is an external collaborator not in
this repository; it returns a negative/zero/positive ordering and its
failures (unknown flavor, malformed version) surface as a raised evaluation
error, modelled as `Except.error`. -/
def Comparator : Type :=
  String → String → String → String → String → Except Unit Int

/-- The mutable evaluation state of `PkgNotPresentTrigger.evaluate`: the three
pending-match collections and the violations fired so far. -/
structure PnpState where
  fullmatch : List (String × String)
  namematch : List String
  vermatch : List (String × String)
  out : List PViol
deriving DecidableEq, Repr

/-- The `PKGFULLMATCH` block (lines 176-185): on a name hit, fire a
wrong-version violation when the full versions differ, and pop the name
either way. -/
def stepFull (st : PnpState) (p : Package) : PnpState :=
  match dictGet st.fullmatch p.name with
  | some req =>
    if p.fullversion ≠ req then
      { st with
        out := st.out ++ [PViol.wrongVersion p.name p.fullversion req],
        fullmatch := dictPop st.fullmatch p.name }
    else
      { st with fullmatch := dictPop st.fullmatch p.name }
  | none => st

/-- The `PKGNAMEMATCH` block (lines 188-189): presence alone satisfies the
requirement. -/
def stepName (st : PnpState) (p : Package) : PnpState :=
  if p.name ∈ st.namematch then { st with namematch := st.namematch.erase p.name }
  else st

/-- The `PKGVERSMATCH` block (lines 191-199): when the full versions differ,
call the comparator on `p.version` against the required minimum and fire a
below-minimum violation on a negative result; pop the name in every
non-raising path.  A comparator error propagates. -/
def stepVer (cmp : Comparator) (st : PnpState) (p : Package) : Except Unit PnpState :=
  match dictGet st.vermatch p.name with
  | some req =>
    if p.fullversion ≠ req then
      match cmp p.flavor p.name p.version p.name req with
      | Except.error e => Except.error e
      | Except.ok c =>
        let st' :=
          if c < 0 then
            { st with out := st.out ++ [PViol.belowMin p.name p.fullversion req] }
          else st
        Except.ok { st' with vermatch := dictPop st'.vermatch p.name }
    else
      Except.ok { st with vermatch := dictPop st.vermatch p.name }
  | none => Except.ok st

/-- One iteration of the package loop (lines 175-199): the three blocks in
source order. -/
def pnpStep (cmp : Comparator) (st : PnpState) (p : Package) : Except Unit PnpState :=
  stepVer cmp (stepName (stepFull st p) p) p

/-- The package loop of `PkgNotPresentTrigger.evaluate`. -/
def pnpLoop (cmp : Comparator) : List Package → PnpState → Except Unit PnpState
  | [], st => Except.ok st
  | p :: ps, st =>
    match pnpStep cmp st p with
    | Except.error e => Except.error e
    | Except.ok st' => pnpLoop cmp ps st'

/-- The post-loop fires (lines 202-210): every entry still pending in
`fullmatch`, then `vermatch`, then `namematch` yields a not-present
violation. -/
def finalViols (st : PnpState) : List PViol :=
  st.out ++ st.fullmatch.map (fun e => PViol.notPresentFull e.1 e.2)
         ++ st.vermatch.map (fun e => PViol.notPresentVer e.1 e.2)
         ++ st.namematch.map (fun n => PViol.notPresentName n)

/-- `PkgNotPresentTrigger.evaluate`: the three parsed specifications, the
union of their names (empty union is a no-op), the filtered package query and
the loop, then the leftover fires. -/
def evaluatePkgNotPresent (cmp : Comparator) (image : Image)
    (fullmatch : List (String × String)) (namematch : List String)
    (vermatch : List (String × String)) : Except Unit (List PViol) :=
  let names := fullmatch.map Prod.fst ++ namematch ++ vermatch.map Prod.fst
  if names = [] then Except.ok []
  else
    match pnpLoop cmp (image.packages.filter (fun p => decide (p.name ∈ names)))
        ⟨fullmatch, namematch, vermatch, []⟩ with
    | Except.error e => Except.error e
    | Except.ok st => Except.ok (finalViols st)

/-- Violations the exact-match (`PKGFULLMATCH`) specification can produce for
a name: a wrong-version fire or a not-present fire. -/
def isFullViolFor (n : String) : PViol → Bool
  | .wrongVersion m _ _ => m = n
  | .notPresentFull m _ => m = n
  | _ => false

/-- Violations the minimum-version (`PKGVERSMATCH`) specification can produce
for a name: a below-minimum fire or a not-present fire. -/
def isVerViolFor (n : String) : PViol → Bool
  | .belowMin m _ _ => m = n
  | .notPresentVer m _ => m = n
  | _ => false

/-! ## Theorems -/

theorem lastChars_self (l : List Char) : lastChars l l.length = l := by
  simp [lastChars]

/-- C1 counterexample: a config-file manifest entry whose filesystem record is
absent is classified `missing`, and the trigger fires a violation for it with
no status filter set — contradicting "never fires regardless of any mismatch,
including the absence of a filesystem record". -/
theorem config_file_missing_record_fires :
    (ManifestEntry.mk "/etc/conf" none none none none true).is_config_file = true ∧
    diffPkgMetaAndFile (ManifestEntry.mk "/etc/conf" none none none none true) none
      = Except.ok (some VState.missing) ∧
    evaluateVerify
      (Image.mk [] [Package.mk "pkgA" "1" "1-r0" "rpm"
        [ManifestEntry.mk "/etc/conf" none none none none true]]) [] [] []
      = Except.ok [VViol.mk "pkgA" "/etc/conf" "missing"] :=
  ⟨rfl, rfl, rfl⟩

/-- C1 (amended): whenever a filesystem record exists at the entry's path, a
manifest entry flagged `is_config_file` is never classified as a violation —
the exemption does not extend to an absent filesystem record, which is
classified `missing` before the config-file flag is consulted. -/
theorem config_file_exempt_when_record_exists (meta : ManifestEntry) (f : FSEntry)
    (hconf : meta.is_config_file = true) :
    diffPkgMetaAndFile meta (some f) = Except.ok none := by
  unfold diffPkgMetaAndFile
  by_cases hname : f.name = some meta.file_path
  · simp [hname, hconf]
  · simp [hname]

/-- C1 witness: the amended theorem applied at a concrete config-file entry
with a matching filesystem record that differs in checksum. -/
theorem config_file_exempt_when_record_exists_witness :
    (ManifestEntry.mk "/etc/c" (some "sha256") (some "aaa") none none true).is_config_file
        = true ∧
    diffPkgMetaAndFile (ManifestEntry.mk "/etc/c" (some "sha256") (some "aaa") none none true)
      (some (FSEntry.mk (some "/etc/c") (some "file") (some "bbb") none none none none))
      = Except.ok none :=
  ⟨rfl, config_file_exempt_when_record_exists _ _ rfl⟩

/-- C3 counterexample: a pair with matching name, `is_config_file` false, a
declared sha256 digest, and a differing observed sha256 checksum is *not*
classified `changed` when the record's `entry_type` is `"dir"`: the checksum
block only runs for `entry_type = "file"`. -/
theorem checksum_mismatch_on_dir_not_changed :
    (FSEntry.mk (some "/usr/d") (some "dir") (some "bbb") none none none none).name
        = some (ManifestEntry.mk "/usr/d" (some "sha256") (some "aaa") none none false).file_path ∧
    (ManifestEntry.mk "/usr/d" (some "sha256") (some "aaa") none none false).is_config_file
        = false ∧
    fsDigestFor (ManifestEntry.mk "/usr/d" (some "sha256") (some "aaa") none none false)
      (FSEntry.mk (some "/usr/d") (some "dir") (some "bbb") none none none none)
        = some "bbb" ∧
    ("bbb" : String) ≠ "aaa" ∧
    diffPkgMetaAndFile (ManifestEntry.mk "/usr/d" (some "sha256") (some "aaa") none none false)
      (some (FSEntry.mk (some "/usr/d") (some "dir") (some "bbb") none none none none))
      ≠ Except.ok (some VState.changed) := by
  refine ⟨rfl, rfl, rfl, by decide, ?_⟩
  intro h
  rw [show diffPkgMetaAndFile (ManifestEntry.mk "/usr/d" (some "sha256") (some "aaa") none none false)
      (some (FSEntry.mk (some "/usr/d") (some "dir") (some "bbb") none none none none))
      = Except.ok none from rfl] at h
  simp at h

/-- C3 (amended): for a pair with matching recorded name, `is_config_file`
false and `entry_type = "file"`, a declared non-empty digest together with a
differing non-empty observed checksum of the matching algorithm classifies the
entry `changed`. -/
theorem checksum_mismatch_on_file_changed (meta : ManifestEntry) (f : FSEntry)
    (d c : String)
    (hname : f.name = some meta.file_path)
    (hconf : meta.is_config_file = false)
    (htype : f.entry_type = some "file")
    (hd : meta.digest = some d) (hd0 : d ≠ "")
    (hc : fsDigestFor meta f = some c) (hc0 : c ≠ "")
    (hne : c ≠ d) :
    diffPkgMetaAndFile meta (some f) = Except.ok (some VState.changed) := by
  have hck : checksumChanged meta f = true := by
    simp [checksumChanged, htype, truthyStr, hd, hc, hd0, hc0, hne]
  unfold diffPkgMetaAndFile
  simp [hname, hconf, hck]

/-- C3 witness: the amended theorem applied to a file-typed record with a
differing sha256 checksum. -/
theorem checksum_mismatch_on_file_changed_witness :
    (ManifestEntry.mk "/usr/f" (some "sha256") (some "aaa") none none false).digest
        = some "aaa" ∧
    diffPkgMetaAndFile (ManifestEntry.mk "/usr/f" (some "sha256") (some "aaa") none none false)
      (some (FSEntry.mk (some "/usr/f") (some "file") (some "bbb") none none none none))
      = Except.ok (some VState.changed) :=
  ⟨rfl, checksum_mismatch_on_file_changed _ _ "aaa" "bbb" rfl rfl rfl rfl
    (by decide) rfl (by decide) (by decide)⟩

theorem modeCmpNe_eq_false_iff (dm fm : Nat) :
    modeCmpNe dm fm = false ↔
      lastChars (pyOct dm) (min (pyOct dm).length (pyOct fm).length)
        = lastChars (pyOct fm) (min (pyOct dm).length (pyOct fm).length) := by
  unfold modeCmpNe
  rcases lt_trichotomy (pyOct dm).length (pyOct fm).length with h | h | h
  · simp [h, Nat.min_eq_left h.le, lastChars_self, Nat.lt_asymm h]
  · have h1 : min (pyOct dm).length (pyOct fm).length = (pyOct dm).length := by omega
    rw [if_neg (by omega), if_neg (by omega), h1, lastChars_self, h, lastChars_self]
    simp
  · simp [h, Nat.min_eq_right h.le, lastChars_self, Nat.lt_asymm h]

/-- C4: for a `"file"`/`"dir"` record with both modes present (and truthy) and
no checksum mismatch found first, the mode comparison inspects exactly the
trailing characters of the two octal strings truncated to the shorter one's
length: equality there means the diff falls through to the size block with no
mode-based `changed`, inequality means classification `changed`. -/
theorem mode_compares_trailing_octal (meta : ManifestEntry) (f : FSEntry) (dm fm : Nat)
    (hname : f.name = some meta.file_path)
    (hconf : meta.is_config_file = false)
    (htype : f.entry_type = some "file" ∨ f.entry_type = some "dir")
    (hdm : meta.mode = some dm) (hfm : f.mode = some fm)
    (hdm0 : dm ≠ 0) (hfm0 : fm ≠ 0)
    (hck : checksumChanged meta f = false) :
    (modeCmpNe dm fm = false ↔
      lastChars (pyOct dm) (min (pyOct dm).length (pyOct fm).length)
        = lastChars (pyOct fm) (min (pyOct dm).length (pyOct fm).length)) ∧
    (modeCmpNe dm fm = true →
      diffPkgMetaAndFile meta (some f) = Except.ok (some VState.changed)) ∧
    (modeCmpNe dm fm = false →
      diffPkgMetaAndFile meta (some f) = sizeCheck meta f) := by
  have hmc : modeChanged meta f = modeCmpNe dm fm := by
    rcases htype with h | h <;> simp [modeChanged, h, hdm, hfm, hdm0, hfm0]
  refine ⟨modeCmpNe_eq_false_iff dm fm, ?_, ?_⟩ <;> intro hmode <;>
    · unfold diffPkgMetaAndFile
      simp [hname, hconf, hck, hmc, hmode]

/-- C4 witness: expected mode `0o755` (493) against an observed raw
`st_mode`-style value `0o100755` (33261) whose octal form has extra leading
digits but the same trailing digits. -/
theorem mode_compares_trailing_octal_witness :
    (493 : Nat) ≠ 0 ∧
    ((modeCmpNe 493 33261 = false ↔
      lastChars (pyOct 493) (min (pyOct 493).length (pyOct 33261).length)
        = lastChars (pyOct 33261) (min (pyOct 493).length (pyOct 33261).length)) ∧
    (modeCmpNe 493 33261 = true →
      diffPkgMetaAndFile (ManifestEntry.mk "/bin/x" none none (some 493) none false)
        (some (FSEntry.mk (some "/bin/x") (some "file") none none none (some 33261) (some 5)))
        = Except.ok (some VState.changed)) ∧
    (modeCmpNe 493 33261 = false →
      diffPkgMetaAndFile (ManifestEntry.mk "/bin/x" none none (some 493) none false)
        (some (FSEntry.mk (some "/bin/x") (some "file") none none none (some 33261) (some 5)))
        = sizeCheck (ManifestEntry.mk "/bin/x" none none (some 493) none false)
            (FSEntry.mk (some "/bin/x") (some "file") none none none (some 33261) (some 5)))) :=
  ⟨by decide,
    mode_compares_trailing_octal _ _ 493 33261 rfl rfl (Or.inl rfl) rfl rfl
      (by decide) (by decide) rfl⟩

/-- C7: the spec promises that absent optional data is never an error, but on
a filesystem record of `entry_type = "file"` carrying no size the source runs
`int(fs_entry.get('size'))` before its truthiness guard and raises
`TypeError`, aborting the whole evaluation — with all other checks
non-discriminating, the diff raises instead of returning "no diff". -/
theorem file_without_size_raises :
    diffPkgMetaAndFile (ManifestEntry.mk "/usr/f" none none none (some 10) false)
      (some (FSEntry.mk (some "/usr/f") (some "file") none none none none none))
      = Except.error () ∧
    evaluateVerify
      (Image.mk [("/usr/f", FSEntry.mk (some "/usr/f") (some "file") none none none none none)]
        [Package.mk "pkgA" "1" "1" "rpm"
          [ManifestEntry.mk "/usr/f" none none none (some 10) false]]) [] [] []
      = Except.error () :=
  ⟨rfl, rfl⟩

/-- C10: a record with matching name, `is_config_file` false, and an
`entry_type` that is neither `"file"` nor `"dir"` (a symlink, say) is always
classified unchanged: every comparison block is type-gated off, so no
metadata difference can make it `changed`. -/
theorem nonfile_nondir_always_unchanged (meta : ManifestEntry) (f : FSEntry)
    (hname : f.name = some meta.file_path)
    (hconf : meta.is_config_file = false)
    (ht1 : f.entry_type ≠ some "file") (ht2 : f.entry_type ≠ some "dir") :
    diffPkgMetaAndFile meta (some f) = Except.ok none := by
  have hck : checksumChanged meta f = false := by simp [checksumChanged, ht1]
  have hmc : modeChanged meta f = false := by simp [modeChanged, ht1, ht2]
  unfold diffPkgMetaAndFile sizeCheck
  simp [hname, hconf, hck, hmc, ht1]

/-- C10 witness: a symlink record differing from the manifest entry in
checksum, mode and size is still classified unchanged. -/
theorem nonfile_nondir_always_unchanged_witness :
    (FSEntry.mk (some "/lib/l") (some "slink") (some "zzz") none none (some 7) none).entry_type
        ≠ some "file" ∧
    diffPkgMetaAndFile
      (ManifestEntry.mk "/lib/l" (some "sha256") (some "aaa") (some 493) (some 10) false)
      (some (FSEntry.mk (some "/lib/l") (some "slink") (some "zzz") none none (some 7) none))
      = Except.ok none :=
  ⟨by decide,
    nonfile_nondir_always_unchanged _ _ rfl rfl (by decide) (by decide)⟩

theorem verifyRecords_ok_eq (files : List (String × FSEntry)) (checks : List String)
    (pkgName : String) (rs : List ManifestEntry) (l : List VViol)
    (h : verifyRecords files checks pkgName rs = Except.ok l) :
    l = rs.flatMap (emitRecord files checks pkgName) := by
  induction rs generalizing l with
  | nil =>
    simp only [verifyRecords, Except.ok.injEq] at h
    simp [← h]
  | cons r rs ih =>
    unfold verifyRecords at h
    cases hd : diffPkgMetaAndFile r (filesGet files r.file_path) with
    | error e => rw [hd] at h; cases h
    | ok status =>
      rw [hd] at h
      cases hrec : verifyRecords files checks pkgName rs with
      | error e => rw [hrec] at h; cases h
      | ok rest =>
        rw [hrec] at h
        simp only [Except.ok.injEq] at h
        subst h
        rw [List.flatMap_cons, ← ih rest hrec]
        congr 1
        unfold emitRecord
        rw [hd]
        cases status <;> simp

theorem verifyPkgs_ok_eq (files : List (String × FSEntry)) (checks pd : List String)
    (ps : List Package) (out : List VViol)
    (h : verifyPkgs files checks pd ps = Except.ok out) :
    out = ps.flatMap
      (fun p => (selectRecords pd p.pkg_db_entries).flatMap (emitRecord files checks p.name)) := by
  induction ps generalizing out with
  | nil =>
    simp only [verifyPkgs, Except.ok.injEq] at h
    simp [← h]
  | cons p ps ih =>
    unfold verifyPkgs at h
    cases hrec : verifyRecords files checks p.name (selectRecords pd p.pkg_db_entries) with
    | error e => rw [hrec] at h; cases h
    | ok here =>
      rw [hrec] at h
      cases hps : verifyPkgs files checks pd ps with
      | error e => rw [hps] at h; cases h
      | ok rest =>
        rw [hps] at h
        simp only [Except.ok.injEq] at h
        subst h
        rw [List.flatMap_cons, ← ih rest hps, verifyRecords_ok_eq _ _ _ _ _ hrec]

theorem evaluateVerify_ok_eq (image : Image) (pn pd checksRaw : List String)
    (out : List VViol) (h : evaluateVerify image pn pd checksRaw = Except.ok out) :
    out = (selectedPkgs image pn).flatMap
      (fun p => (selectRecords pd p.pkg_db_entries).flatMap
        (emitRecord image.fs_files (checksRaw.map pyLower) p.name)) :=
  verifyPkgs_ok_eq _ _ _ _ _ h

theorem mem_emitRecord (files : List (String × FSEntry)) (checks : List String)
    (pkgName : String) (r : ManifestEntry) (v : VViol) :
    v ∈ emitRecord files checks pkgName r ↔
      ∃ st : VState,
        diffPkgMetaAndFile r (filesGet files r.file_path) = Except.ok (some st) ∧
        (checks = [] ∨ st.value ∈ checks) ∧ v = ⟨pkgName, r.file_path, st.value⟩ := by
  unfold emitRecord
  cases hd : diffPkgMetaAndFile r (filesGet files r.file_path) with
  | error e => simp [hd]
  | ok status =>
    cases status with
    | none => simp [hd]
    | some st =>
      by_cases hc : checks = [] ∨ st.value ∈ checks
      · simp only [if_pos hc, List.mem_singleton, hd]
        constructor
        · intro hv; exact ⟨st, rfl, hc, hv⟩
        · rintro ⟨st', hst', _, hv⟩
          simp only [Except.ok.injEq, Option.some.injEq] at hst'
          rw [hv, ← hst']
      · simp only [if_neg hc, List.not_mem_nil, false_iff, not_exists]
        rintro st' ⟨hst', hc', hv⟩
        simp only [Except.ok.injEq, Option.some.injEq] at hst'
        rw [← hst'] at hc'
        exact hc hc'

theorem emitRecord_count_missing (files : List (String × FSEntry)) (n path : String)
    (hnone : filesGet files path = none) (pkgName : String) (r : ManifestEntry) :
    ((emitRecord files [] pkgName r).countP
        (fun v => v.pkg = n && v.path = path && v.status = "missing"))
      = if (pkgName, r.file_path) = (n, path) then 1 else 0 := by
  by_cases hkey : pkgName = n ∧ r.file_path = path
  · obtain ⟨h1, h2⟩ := hkey
    subst h1
    rw [if_pos (by rw [h2])]
    rw [show emitRecord files [] pkgName r = [⟨pkgName, r.file_path, "missing"⟩] from by
      unfold emitRecord
      rw [h2, hnone]
      rfl]
    simp [h2]
  · rw [if_neg (by simpa [Prod.ext_iff] using hkey)]
    rw [List.countP_eq_zero]
    intro v hv
    rw [mem_emitRecord] at hv
    obtain ⟨st, _, _, hv⟩ := hv
    subst hv
    simp only [Bool.and_eq_true, decide_eq_true_eq, not_and]
    intro h12
    exact absurd h12 hkey

theorem records_missing_count (files : List (String × FSEntry)) (n path : String)
    (hnone : filesGet files path = none) (pkgName : String) (rs : List ManifestEntry) :
    ((rs.flatMap (emitRecord files [] pkgName)).countP
        (fun v => v.pkg = n && v.path = path && v.status = "missing"))
      = (rs.map (fun r => (pkgName, r.file_path))).count (n, path) := by
  induction rs with
  | nil => simp
  | cons r rs ih =>
    rw [List.flatMap_cons, List.countP_append, List.map_cons, List.count_cons, ih,
      emitRecord_count_missing files n path hnone]
    by_cases hkey : (pkgName, r.file_path) = (n, path)
    · rw [if_pos hkey, if_pos (by simpa using hkey)]
      omega
    · rw [if_neg hkey, if_neg (by simpa using hkey)]
      omega

theorem pkgs_missing_count (files : List (String × FSEntry)) (pd : List String)
    (n path : String) (hnone : filesGet files path = none) (ps : List Package) :
    ((ps.flatMap (fun p => (selectRecords pd p.pkg_db_entries).flatMap
        (emitRecord files [] p.name))).countP
        (fun v => v.pkg = n && v.path = path && v.status = "missing"))
      = (ps.flatMap (fun p =>
          (selectRecords pd p.pkg_db_entries).map (fun r => (p.name, r.file_path)))).count
          (n, path) := by
  induction ps with
  | nil => simp
  | cons p ps ih =>
    rw [List.flatMap_cons, List.flatMap_cons, List.countP_append, List.count_append, ih,
      records_missing_count files n path hnone]

/-- C2 counterexample: with the overlapping `DIRS` prefixes `/usr` and
`/usr/lib`, the per-prefix accumulation of lines 51-54 visits the entry
`/usr/lib/x` once per matching prefix, so its missing filesystem record fires
two `missing` violations for the same entry — not exactly one. -/
theorem missing_record_fires_twice_overlapping_dirs :
    filesGet ([] : List (String × FSEntry)) "/usr/lib/x" = none ∧
    evaluateVerify
      (Image.mk [] [Package.mk "pkgA" "1" "1" "rpm"
        [ManifestEntry.mk "/usr/lib/x" none none none none false]])
      [] ["/usr", "/usr/lib"] []
      = Except.ok [VViol.mk "pkgA" "/usr/lib/x" "missing",
                   VViol.mk "pkgA" "/usr/lib/x" "missing"] ∧
    (([VViol.mk "pkgA" "/usr/lib/x" "missing",
       VViol.mk "pkgA" "/usr/lib/x" "missing"]).countP
        (fun v => v.pkg = "pkgA" && v.path = "/usr/lib/x" && v.status = "missing")) = 2 :=
  ⟨rfl, rfl, rfl⟩

/-- C2 (amended): a manifest entry whose path has no filesystem record is
classified `missing`, and with no status filter a `VERIFY` evaluation that
returns fires one `missing` violation per visit of that entry — exactly one
provided the (package name, file path) pair occurs exactly once among the
visited entries, which overlapping or repeated `DIRS` prefixes can
violate. -/
theorem missing_record_fires_exactly_once (image : Image) (pn pd : List String)
    (out : List VViol) (n path : String)
    (hok : evaluateVerify image pn pd [] = Except.ok out)
    (hnone : filesGet image.fs_files path = none)
    (hcount : (verifyPairs image pn pd).count (n, path) = 1) :
    (∀ m : ManifestEntry, diffPkgMetaAndFile m none = Except.ok (some VState.missing)) ∧
    (out.countP (fun v => v.pkg = n && v.path = path && v.status = "missing")) = 1 := by
  refine ⟨fun m => rfl, ?_⟩
  have h := evaluateVerify_ok_eq image pn pd [] out hok
  rw [show (([] : List String).map pyLower) = [] from rfl] at h
  rw [h, pkgs_missing_count image.fs_files pd n path hnone]
  exact hcount

/-- C2 witness: a one-package image whose single manifest entry has no
filesystem record yields exactly one `missing` violation. -/
theorem missing_record_fires_exactly_once_witness :
    filesGet ([] : List (String × FSEntry)) "/x" = none ∧
    (([VViol.mk "pkgA" "/x" "missing"]).countP
        (fun v => v.pkg = "pkgA" && v.path = "/x" && v.status = "missing")) = 1 :=
  ⟨rfl, (missing_record_fires_exactly_once
      (Image.mk [] [Package.mk "pkgA" "1" "1" "rpm"
        [ManifestEntry.mk "/x" none none none none false]]) [] []
      [VViol.mk "pkgA" "/x" "missing"] "pkgA" "/x" rfl rfl rfl).2⟩

/-- C9: in a `VERIFY` evaluation that returns, every fired violation's status
passes the (lowercased) `CHECK_ONLY` filter — vacuously when the filter is
empty — and conversely every visited entry whose classification passes the
filter (every non-unchanged classification, when the filter is empty) has its
violation in the output. -/
theorem check_only_filters_violations (image : Image) (pn pd checksRaw : List String)
    (out : List VViol)
    (hok : evaluateVerify image pn pd checksRaw = Except.ok out) :
    (∀ v ∈ out, checksRaw.map pyLower = [] ∨ v.status ∈ checksRaw.map pyLower) ∧
    (∀ p ∈ selectedPkgs image pn, ∀ r ∈ selectRecords pd p.pkg_db_entries, ∀ st : VState,
      diffPkgMetaAndFile r (filesGet image.fs_files r.file_path) = Except.ok (some st) →
      (checksRaw.map pyLower = [] ∨ st.value ∈ checksRaw.map pyLower) →
      VViol.mk p.name r.file_path st.value ∈ out) := by
  have hout := evaluateVerify_ok_eq image pn pd checksRaw out hok
  constructor
  · intro v hv
    rw [hout, List.mem_flatMap] at hv
    obtain ⟨p, _, hv⟩ := hv
    rw [List.mem_flatMap] at hv
    obtain ⟨r, _, hv⟩ := hv
    rw [mem_emitRecord] at hv
    obtain ⟨st, _, hc, hveq⟩ := hv
    subst hveq
    simpa using hc
  · intro p hp r hr st hst hc
    rw [hout, List.mem_flatMap]
    refine ⟨p, hp, ?_⟩
    rw [List.mem_flatMap]
    refine ⟨r, hr, ?_⟩
    rw [mem_emitRecord]
    exact ⟨st, hst, hc, rfl⟩

/-- C9 witness: with `CHECK_ONLY = missing`, an image holding one changed
entry and one missing entry reports only the missing one, and the theorem
recovers that violation's membership. -/
theorem check_only_filters_violations_witness :
    evaluateVerify
      (Image.mk [("/c", FSEntry.mk (some "/c") (some "file") (some "bbb") none none none (some 3))]
        [Package.mk "pkgB" "1" "1" "rpm"
          [ManifestEntry.mk "/c" (some "sha256") (some "aaa") none none false,
           ManifestEntry.mk "/m" none none none none false]]) [] [] ["missing"]
      = Except.ok [VViol.mk "pkgB" "/m" "missing"] ∧
    VViol.mk "pkgB" "/m" "missing" ∈ [VViol.mk "pkgB" "/m" "missing"] := by
  refine ⟨rfl, ?_⟩
  have h := (check_only_filters_violations
    (Image.mk [("/c", FSEntry.mk (some "/c") (some "file") (some "bbb") none none none (some 3))]
      [Package.mk "pkgB" "1" "1" "rpm"
        [ManifestEntry.mk "/c" (some "sha256") (some "aaa") none none false,
         ManifestEntry.mk "/m" none none none none false]]) [] [] ["missing"]
    [VViol.mk "pkgB" "/m" "missing"] rfl).2
  exact h (Package.mk "pkgB" "1" "1" "rpm"
      [ManifestEntry.mk "/c" (some "sha256") (some "aaa") none none false,
       ManifestEntry.mk "/m" none none none none false]) (by decide)
    (ManifestEntry.mk "/m" none none none none false) (by decide)
    VState.missing rfl (Or.inr (by decide))


theorem find?_eq_head?_filter {α : Type} (p : α → Bool) (l : List α) :
    l.find? p = (l.filter p).head? := by
  induction l with
  | nil => rfl
  | cons x xs ih =>
    by_cases h : p x
    · simp [List.find?_cons, List.filter_cons, h]
    · rw [List.find?_cons_of_neg _ (by simpa using h), List.filter_cons_of_neg (by simpa using h)]
      exact ih

theorem dictGet_eq_of_filter {d : List (String × String)} {n req : String}
    (h : d.filter (fun e => e.1 = n) = [(n, req)]) : dictGet d n = some req := by
  unfold dictGet
  rw [find?_eq_head?_filter, h]
  rfl

theorem dictGet_none_of_filter {d : List (String × String)} {n : String}
    (h : d.filter (fun e => e.1 = n) = []) : dictGet d n = none := by
  unfold dictGet
  rw [find?_eq_head?_filter, h]
  rfl

theorem filter_of_nodup_dictGet {d : List (String × String)} {n req : String}
    (hkeys : (d.map Prod.fst).Nodup) (h : dictGet d n = some req) :
    d.filter (fun e => e.1 = n) = [(n, req)] := by
  induction d with
  | nil => cases h
  | cons e d ih =>
    simp only [List.map_cons, List.nodup_cons] at hkeys
    by_cases he : e.1 = n
    · have h2 : e.2 = req := by
        unfold dictGet at h
        rw [List.find?_cons_of_pos _ (by simpa using he)] at h
        simpa using h
      have hrest : d.filter (fun x => x.1 = n) = [] := by
        rw [List.filter_eq_nil_iff]
        intro x hx hxn0
        apply hkeys.1
        rw [he]
        have hxn : x.1 = n := by simpa using hxn0
        rw [← hxn]
        exact List.mem_map_of_mem _ hx
      rw [List.filter_cons_of_pos (by simpa using he), hrest]
      rw [show e = (n, req) from Prod.ext he h2]
    · unfold dictGet at h
      rw [List.find?_cons_of_neg _ (by simpa using he)] at h
      rw [List.filter_cons_of_neg (by simpa using he)]
      exact ih hkeys.2 h

theorem filter_dictPop_self (d : List (String × String)) (n : String) :
    (dictPop d n).filter (fun e => e.1 = n) = [] := by
  unfold dictPop
  rw [List.filter_eq_nil_iff]
  intro x hx
  have := List.of_mem_filter hx
  simpa using this

theorem filter_dictPop_other (d : List (String × String)) {k n : String} (h : k ≠ n) :
    (dictPop d k).filter (fun e => e.1 = n) = d.filter (fun e => e.1 = n) := by
  unfold dictPop
  rw [List.filter_filter]
  apply List.filter_congr
  intro x _
  by_cases hx : x.1 = n
  · simp [hx, h.symm]
  · simp [hx]


theorem stepFull_ver (st : PnpState) (p : Package) (n : String) :
    (stepFull st p).vermatch = st.vermatch ∧
    (stepFull st p).namematch = st.namematch ∧
    (stepFull st p).out.countP (isVerViolFor n) = st.out.countP (isVerViolFor n) ∧
    ∃ l, (stepFull st p).out = st.out ++ l := by
  unfold stepFull
  rcases hd : dictGet st.fullmatch p.name with _ | req
  · exact ⟨rfl, rfl, rfl, [], by simp⟩
  · dsimp only
    by_cases hv : p.fullversion ≠ req
    · rw [if_pos hv]
      exact ⟨rfl, rfl, by simp [List.countP_append, isVerViolFor], _, rfl⟩
    · rw [if_neg hv]
      exact ⟨rfl, rfl, rfl, [], by simp⟩

theorem stepFull_full_other (st : PnpState) (p : Package) (n : String) (hne : p.name ≠ n) :
    (stepFull st p).fullmatch.filter (fun e => e.1 = n)
        = st.fullmatch.filter (fun e => e.1 = n) ∧
    (stepFull st p).out.countP (isFullViolFor n) = st.out.countP (isFullViolFor n) := by
  unfold stepFull
  rcases hd : dictGet st.fullmatch p.name with _ | req
  · exact ⟨rfl, rfl⟩
  · dsimp only
    by_cases hv : p.fullversion ≠ req
    · rw [if_pos hv]
      exact ⟨filter_dictPop_other st.fullmatch hne,
        by simp [List.countP_append, isFullViolFor, hne]⟩
    · rw [if_neg hv]
      exact ⟨filter_dictPop_other st.fullmatch hne, rfl⟩

theorem stepFull_full_resolved (st : PnpState) (p : Package) (n : String)
    (hres : st.fullmatch.filter (fun e => e.1 = n) = []) :
    (stepFull st p).fullmatch.filter (fun e => e.1 = n) = [] ∧
    (stepFull st p).out.countP (isFullViolFor n) = st.out.countP (isFullViolFor n) := by
  by_cases hn : p.name = n
  · have hget : dictGet st.fullmatch p.name = none := by
      rw [hn]; exact dictGet_none_of_filter hres
    unfold stepFull
    rw [hget]
    exact ⟨hres, rfl⟩
  · obtain ⟨h1, h2⟩ := stepFull_full_other st p n hn
    exact ⟨h1.trans hres, h2⟩

theorem stepName_all (st : PnpState) (p : Package) :
    (stepName st p).fullmatch = st.fullmatch ∧
    (stepName st p).vermatch = st.vermatch ∧
    (stepName st p).out = st.out := by
  unfold stepName
  split <;> exact ⟨rfl, rfl, rfl⟩

theorem stepVer_full (cmp : Comparator) (st st' : PnpState) (p : Package) (n : String)
    (h : stepVer cmp st p = Except.ok st') :
    st'.fullmatch = st.fullmatch ∧
    st'.out.countP (isFullViolFor n) = st.out.countP (isFullViolFor n) ∧
    ∃ l, st'.out = st.out ++ l := by
  unfold stepVer at h
  rcases hd : dictGet st.vermatch p.name with _ | req <;> rw [hd] at h
  · cases h
    exact ⟨rfl, rfl, [], by simp⟩
  · dsimp only at h
    by_cases hv : p.fullversion ≠ req
    · rw [if_pos hv] at h
      rcases hc : cmp p.flavor p.name p.version p.name req with e | c <;> rw [hc] at h
      · cases h
      · by_cases hcl : c < 0
        · simp only [if_pos hcl] at h
          cases h
          exact ⟨rfl, by simp [List.countP_append, isFullViolFor], _, rfl⟩
        · simp only [if_neg hcl] at h
          cases h
          exact ⟨rfl, rfl, [], by simp⟩
    · rw [if_neg hv] at h
      cases h
      exact ⟨rfl, rfl, [], by simp⟩


theorem stepVer_ver_other (cmp : Comparator) (st st' : PnpState) (p : Package) (n : String)
    (hne : p.name ≠ n) (h : stepVer cmp st p = Except.ok st') :
    st'.vermatch.filter (fun e => e.1 = n) = st.vermatch.filter (fun e => e.1 = n) ∧
    st'.out.countP (isVerViolFor n) = st.out.countP (isVerViolFor n) := by
  unfold stepVer at h
  rcases hd : dictGet st.vermatch p.name with _ | req <;> rw [hd] at h
  · cases h
    exact ⟨rfl, rfl⟩
  · dsimp only at h
    by_cases hv : p.fullversion ≠ req
    · rw [if_pos hv] at h
      rcases hc : cmp p.flavor p.name p.version p.name req with e | c <;> rw [hc] at h
      · cases h
      · by_cases hcl : c < 0
        · simp only [if_pos hcl] at h
          cases h
          exact ⟨filter_dictPop_other st.vermatch hne,
            by simp [List.countP_append, isVerViolFor, hne]⟩
        · simp only [if_neg hcl] at h
          cases h
          exact ⟨filter_dictPop_other st.vermatch hne, rfl⟩
    · rw [if_neg hv] at h
      cases h
      exact ⟨filter_dictPop_other st.vermatch hne, rfl⟩

theorem stepVer_ver_resolved (cmp : Comparator) (st st' : PnpState) (p : Package) (n : String)
    (hres : st.vermatch.filter (fun e => e.1 = n) = []) (h : stepVer cmp st p = Except.ok st') :
    st'.vermatch.filter (fun e => e.1 = n) = [] ∧
    st'.out.countP (isVerViolFor n) = st.out.countP (isVerViolFor n) := by
  by_cases hn : p.name = n
  · have hget : dictGet st.vermatch p.name = none := by
      rw [hn]; exact dictGet_none_of_filter hres
    unfold stepVer at h
    rw [hget] at h
    cases h
    exact ⟨hres, rfl⟩
  · obtain ⟨h1, h2⟩ := stepVer_ver_other cmp st st' p n hn h
    exact ⟨h1.trans hres, h2⟩

theorem pnpStep_full_other (cmp : Comparator) (st st' : PnpState) (p : Package) (n : String)
    (hne : p.name ≠ n) (h : pnpStep cmp st p = Except.ok st') :
    st'.fullmatch.filter (fun e => e.1 = n) = st.fullmatch.filter (fun e => e.1 = n) ∧
    st'.out.countP (isFullViolFor n) = st.out.countP (isFullViolFor n) := by
  unfold pnpStep at h
  obtain ⟨hf1, hf2⟩ := stepFull_full_other st p n hne
  obtain ⟨hn1, _, hn3⟩ := stepName_all (stepFull st p) p
  obtain ⟨hv1, hv2, _⟩ := stepVer_full cmp (stepName (stepFull st p) p) st' p n h
  refine ⟨?_, ?_⟩
  · rw [hv1, hn1, hf1]
  · rw [hv2, hn3, hf2]

theorem pnpStep_full_resolved (cmp : Comparator) (st st' : PnpState) (p : Package) (n : String)
    (hres : st.fullmatch.filter (fun e => e.1 = n) = []) (h : pnpStep cmp st p = Except.ok st') :
    st'.fullmatch.filter (fun e => e.1 = n) = [] ∧
    st'.out.countP (isFullViolFor n) = st.out.countP (isFullViolFor n) := by
  unfold pnpStep at h
  obtain ⟨hf1, hf2⟩ := stepFull_full_resolved st p n hres
  obtain ⟨hn1, _, hn3⟩ := stepName_all (stepFull st p) p
  obtain ⟨hv1, hv2, _⟩ := stepVer_full cmp (stepName (stepFull st p) p) st' p n h
  refine ⟨?_, ?_⟩
  · rw [hv1, hn1, hf1]
  · rw [hv2, hn3, hf2]

theorem pnpStep_ver_other (cmp : Comparator) (st st' : PnpState) (p : Package) (n : String)
    (hne : p.name ≠ n) (h : pnpStep cmp st p = Except.ok st') :
    st'.vermatch.filter (fun e => e.1 = n) = st.vermatch.filter (fun e => e.1 = n) ∧
    st'.out.countP (isVerViolFor n) = st.out.countP (isVerViolFor n) := by
  unfold pnpStep at h
  obtain ⟨hf1, _, hf3, _⟩ := stepFull_ver st p n
  obtain ⟨_, hn2, hn3⟩ := stepName_all (stepFull st p) p
  obtain ⟨hv1, hv2⟩ := stepVer_ver_other cmp (stepName (stepFull st p) p) st' p n hne h
  refine ⟨?_, ?_⟩
  · rw [hv1, hn2, hf1]
  · rw [hv2, hn3, hf3]

theorem pnpStep_ver_resolved (cmp : Comparator) (st st' : PnpState) (p : Package) (n : String)
    (hres : st.vermatch.filter (fun e => e.1 = n) = []) (h : pnpStep cmp st p = Except.ok st') :
    st'.vermatch.filter (fun e => e.1 = n) = [] ∧
    st'.out.countP (isVerViolFor n) = st.out.countP (isVerViolFor n) := by
  unfold pnpStep at h
  obtain ⟨hf1, _, hf3, _⟩ := stepFull_ver st p n
  obtain ⟨_, hn2, hn3⟩ := stepName_all (stepFull st p) p
  obtain ⟨hv1, hv2⟩ := stepVer_ver_resolved cmp (stepName (stepFull st p) p) st' p n
    (by rw [hn2, hf1]; exact hres) h
  refine ⟨hv1, ?_⟩
  · rw [hv2, hn3, hf3]

theorem pnpStep_out_append (cmp : Comparator) (st st' : PnpState) (p : Package)
    (h : pnpStep cmp st p = Except.ok st') : ∃ l, st'.out = st.out ++ l := by
  unfold pnpStep at h
  obtain ⟨_, _, _, l1, hf4⟩ := stepFull_ver st p ""
  obtain ⟨_, _, hn3⟩ := stepName_all (stepFull st p) p
  obtain ⟨_, _, l2, hv3⟩ := stepVer_full cmp (stepName (stepFull st p) p) st' p "" h
  exact ⟨l1 ++ l2, by rw [hv3, hn3, hf4, List.append_assoc]⟩


theorem pnpLoop_out_append (cmp : Comparator) (ps : List Package) (st st' : PnpState)
    (h : pnpLoop cmp ps st = Except.ok st') : ∃ l, st'.out = st.out ++ l := by
  induction ps generalizing st with
  | nil => cases h; exact ⟨[], by simp⟩
  | cons p ps ih =>
    unfold pnpLoop at h
    cases hs : pnpStep cmp st p with
    | error e => rw [hs] at h; cases h
    | ok st1 =>
      rw [hs] at h
      obtain ⟨l1, h1⟩ := pnpStep_out_append cmp st st1 p hs
      obtain ⟨l2, h2⟩ := ih st1 h
      exact ⟨l1 ++ l2, by rw [h2, h1, List.append_assoc]⟩

theorem pnpLoop_full_other (cmp : Comparator) (ps : List Package) (st st' : PnpState)
    (n : String) (hall : ∀ q ∈ ps, q.name ≠ n) (h : pnpLoop cmp ps st = Except.ok st') :
    st'.fullmatch.filter (fun e => e.1 = n) = st.fullmatch.filter (fun e => e.1 = n) ∧
    st'.out.countP (isFullViolFor n) = st.out.countP (isFullViolFor n) := by
  induction ps generalizing st with
  | nil => cases h; exact ⟨rfl, rfl⟩
  | cons p ps ih =>
    unfold pnpLoop at h
    cases hs : pnpStep cmp st p with
    | error e => rw [hs] at h; cases h
    | ok st1 =>
      rw [hs] at h
      obtain ⟨h1, h2⟩ := pnpStep_full_other cmp st st1 p n (hall p (List.mem_cons_self p ps)) hs
      obtain ⟨h3, h4⟩ := ih st1 (fun q hq => hall q (List.mem_cons_of_mem p hq)) h
      exact ⟨h3.trans h1, h4.trans h2⟩

theorem pnpLoop_full_resolved (cmp : Comparator) (ps : List Package) (st st' : PnpState)
    (n : String) (hres : st.fullmatch.filter (fun e => e.1 = n) = [])
    (h : pnpLoop cmp ps st = Except.ok st') :
    st'.fullmatch.filter (fun e => e.1 = n) = [] ∧
    st'.out.countP (isFullViolFor n) = st.out.countP (isFullViolFor n) := by
  induction ps generalizing st with
  | nil => cases h; exact ⟨hres, rfl⟩
  | cons p ps ih =>
    unfold pnpLoop at h
    cases hs : pnpStep cmp st p with
    | error e => rw [hs] at h; cases h
    | ok st1 =>
      rw [hs] at h
      obtain ⟨h1, h2⟩ := pnpStep_full_resolved cmp st st1 p n hres hs
      obtain ⟨h3, h4⟩ := ih st1 h1 h
      exact ⟨h3, h4.trans h2⟩

theorem pnpLoop_ver_other (cmp : Comparator) (ps : List Package) (st st' : PnpState)
    (n : String) (hall : ∀ q ∈ ps, q.name ≠ n) (h : pnpLoop cmp ps st = Except.ok st') :
    st'.vermatch.filter (fun e => e.1 = n) = st.vermatch.filter (fun e => e.1 = n) ∧
    st'.out.countP (isVerViolFor n) = st.out.countP (isVerViolFor n) := by
  induction ps generalizing st with
  | nil => cases h; exact ⟨rfl, rfl⟩
  | cons p ps ih =>
    unfold pnpLoop at h
    cases hs : pnpStep cmp st p with
    | error e => rw [hs] at h; cases h
    | ok st1 =>
      rw [hs] at h
      obtain ⟨h1, h2⟩ := pnpStep_ver_other cmp st st1 p n (hall p (List.mem_cons_self p ps)) hs
      obtain ⟨h3, h4⟩ := ih st1 (fun q hq => hall q (List.mem_cons_of_mem p hq)) h
      exact ⟨h3.trans h1, h4.trans h2⟩

theorem pnpLoop_ver_resolved (cmp : Comparator) (ps : List Package) (st st' : PnpState)
    (n : String) (hres : st.vermatch.filter (fun e => e.1 = n) = [])
    (h : pnpLoop cmp ps st = Except.ok st') :
    st'.vermatch.filter (fun e => e.1 = n) = [] ∧
    st'.out.countP (isVerViolFor n) = st.out.countP (isVerViolFor n) := by
  induction ps generalizing st with
  | nil => cases h; exact ⟨hres, rfl⟩
  | cons p ps ih =>
    unfold pnpLoop at h
    cases hs : pnpStep cmp st p with
    | error e => rw [hs] at h; cases h
    | ok st1 =>
      rw [hs] at h
      obtain ⟨h1, h2⟩ := pnpStep_ver_resolved cmp st st1 p n hres hs
      obtain ⟨h3, h4⟩ := ih st1 h1 h
      exact ⟨h3, h4.trans h2⟩

theorem pnpLoop_cons_ok (cmp : Comparator) (p : Package) (ps : List Package)
    (st st1 : PnpState) (hs : pnpStep cmp st p = Except.ok st1) :
    pnpLoop cmp (p :: ps) st = pnpLoop cmp ps st1 := by
  conv_lhs => unfold pnpLoop
  rw [hs]

theorem pnpLoop_cons_err (cmp : Comparator) (p : Package) (ps : List Package)
    (st : PnpState) (e : Unit) (hs : pnpStep cmp st p = Except.error e) :
    pnpLoop cmp (p :: ps) st = Except.error e := by
  conv_lhs => unfold pnpLoop
  rw [hs]

theorem pnpLoop_append_ok (cmp : Comparator) (l1 l2 : List Package) (st st' : PnpState)
    (h : pnpLoop cmp (l1 ++ l2) st = Except.ok st') :
    ∃ stm, pnpLoop cmp l1 st = Except.ok stm ∧ pnpLoop cmp l2 stm = Except.ok st' := by
  induction l1 generalizing st with
  | nil => exact ⟨st, rfl, h⟩
  | cons p l1 ih =>
    rw [List.cons_append] at h
    cases hs : pnpStep cmp st p with
    | error e =>
      rw [pnpLoop_cons_err cmp p _ st e hs] at h
      cases h
    | ok st1 =>
      rw [pnpLoop_cons_ok cmp p _ st st1 hs] at h
      rw [pnpLoop_cons_ok cmp p l1 st st1 hs]
      exact ih st1 h

theorem pnpLoop_append_error (cmp : Comparator) (l1 : List Package) (p : Package)
    (l2 : List Package) (st st1 : PnpState)
    (h1 : pnpLoop cmp l1 st = Except.ok st1) (h2 : pnpStep cmp st1 p = Except.error ()) :
    pnpLoop cmp (l1 ++ p :: l2) st = Except.error () := by
  induction l1 generalizing st with
  | nil =>
    cases h1
    rw [List.nil_append]
    exact pnpLoop_cons_err cmp p l2 _ () h2
  | cons q l1 ih =>
    rw [List.cons_append]
    cases hs : pnpStep cmp st q with
    | error e =>
      rw [pnpLoop_cons_err cmp q _ st e hs] at h1
      cases h1
    | ok stq =>
      rw [pnpLoop_cons_ok cmp q _ st stq hs] at h1
      rw [pnpLoop_cons_ok cmp q _ st stq hs]
      exact ih stq h1


theorem pnpStep_full_hit (cmp : Comparator) (st st' : PnpState) (p : Package)
    (n req : String) (hpn : p.name = n) (hget : dictGet st.fullmatch n = some req)
    (h : pnpStep cmp st p = Except.ok st') :
    st'.fullmatch.filter (fun e => e.1 = n) = [] ∧
    (p.fullversion ≠ req →
      st'.out.countP (isFullViolFor n) = st.out.countP (isFullViolFor n) + 1 ∧
      PViol.wrongVersion n p.fullversion req ∈ st'.out) ∧
    (p.fullversion = req →
      st'.out.countP (isFullViolFor n) = st.out.countP (isFullViolFor n)) := by
  unfold pnpStep at h
  obtain ⟨hn1, _, hn3⟩ := stepName_all (stepFull st p) p
  obtain ⟨hv1, hv2, lv, hv3⟩ := stepVer_full cmp (stepName (stepFull st p) p) st' p n h
  have hgetp : dictGet st.fullmatch p.name = some req := by rw [hpn]; exact hget
  by_cases hv : p.fullversion ≠ req
  · have hsf : stepFull st p = { st with
        out := st.out ++ [PViol.wrongVersion p.name p.fullversion req],
        fullmatch := dictPop st.fullmatch p.name } := by
      unfold stepFull
      rw [hgetp]
      dsimp only
      rw [if_pos hv]
    refine ⟨?_, fun _ => ⟨?_, ?_⟩, fun he => absurd he hv⟩
    · rw [hv1, hn1, hsf]
      dsimp only
      rw [hpn]
      exact filter_dictPop_self st.fullmatch n
    · rw [hv2, hn3, hsf]
      simp [List.countP_append, isFullViolFor, hpn]
    · rw [hv3, hn3, hsf]
      dsimp only
      rw [hpn]
      simp
  · rw [not_not] at hv
    have hsf : stepFull st p = { st with fullmatch := dictPop st.fullmatch p.name } := by
      unfold stepFull
      rw [hgetp]
      dsimp only
      rw [if_neg (by simp [hv])]
    refine ⟨?_, fun hne => absurd hv hne, fun _ => ?_⟩
    · rw [hv1, hn1, hsf]
      dsimp only
      rw [hpn]
      exact filter_dictPop_self st.fullmatch n
    · rw [hv2, hn3, hsf]

theorem pnpStep_ver_hit (cmp : Comparator) (st st' : PnpState) (p : Package)
    (n req : String) (c : Int) (hpn : p.name = n) (hget : dictGet st.vermatch n = some req)
    (h : pnpStep cmp st p = Except.ok st') :
    st'.vermatch.filter (fun e => e.1 = n) = [] ∧
    (p.fullversion = req →
      st'.out.countP (isVerViolFor n) = st.out.countP (isVerViolFor n)) ∧
    (p.fullversion ≠ req → cmp p.flavor p.name p.version p.name req = Except.ok c →
      ((c < 0 →
        st'.out.countP (isVerViolFor n) = st.out.countP (isVerViolFor n) + 1 ∧
        PViol.belowMin n p.fullversion req ∈ st'.out) ∧
       (¬c < 0 →
        st'.out.countP (isVerViolFor n) = st.out.countP (isVerViolFor n)))) := by
  unfold pnpStep at h
  obtain ⟨hf1, hf2, hf3, lf, hf4⟩ := stepFull_ver st p n
  obtain ⟨_, hm2, hm3⟩ := stepName_all (stepFull st p) p
  have hgetp : dictGet (stepName (stepFull st p) p).vermatch p.name = some req := by
    rw [hm2, hf1, hpn]; exact hget
  have hcount2 : (stepName (stepFull st p) p).out.countP (isVerViolFor n)
      = st.out.countP (isVerViolFor n) := by rw [hm3, hf3]
  unfold stepVer at h
  rw [hgetp] at h
  dsimp only at h
  by_cases hv : p.fullversion ≠ req
  · rw [if_pos hv] at h
    rcases hc : cmp p.flavor p.name p.version p.name req with e | c' <;> rw [hc] at h
    · cases h
    · by_cases hcl : c' < 0
      · simp only [if_pos hcl] at h
        cases h
        refine ⟨by rw [hm2, hf1, hpn]; exact filter_dictPop_self st.vermatch n,
          fun he => absurd he hv, fun _ hc2 => ?_⟩
        have hcc : c = c' := (Except.ok.inj hc2).symm
        subst hcc
        refine ⟨fun _ => ⟨?_, ?_⟩, fun hncl => absurd hcl hncl⟩
        · dsimp only
          rw [List.countP_append, hcount2]
          simp [isVerViolFor, hpn]
        · dsimp only
          rw [hpn]
          simp
      · simp only [if_neg hcl] at h
        cases h
        refine ⟨by rw [hm2, hf1, hpn]; exact filter_dictPop_self st.vermatch n,
          fun he => absurd he hv, fun _ hc2 => ?_⟩
        have hcc : c = c' := (Except.ok.inj hc2).symm
        subst hcc
        exact ⟨fun hcl2 => absurd hcl2 hcl, fun _ => hcount2⟩
  · rw [if_neg hv] at h
    cases h
    rw [not_not] at hv
    refine ⟨by rw [hm2, hf1, hpn]; exact filter_dictPop_self st.vermatch n,
      fun _ => hcount2, fun hne _ => absurd hv hne⟩

theorem finalViols_count_full (st : PnpState) (n : String) :
    (finalViols st).countP (isFullViolFor n)
      = st.out.countP (isFullViolFor n)
        + (st.fullmatch.filter (fun e => e.1 = n)).length := by
  unfold finalViols
  simp only [List.countP_append, List.countP_map]
  have h1 : st.fullmatch.countP (isFullViolFor n ∘ fun e => PViol.notPresentFull e.1 e.2)
      = (st.fullmatch.filter (fun e => e.1 = n)).length := by
    rw [← List.countP_eq_length_filter]
    apply List.countP_congr
    intro e _
    simp [isFullViolFor, Function.comp]
  have h2 : st.vermatch.countP (isFullViolFor n ∘ fun e => PViol.notPresentVer e.1 e.2) = 0 := by
    rw [List.countP_eq_zero]
    intro e _
    simp [isFullViolFor, Function.comp]
  have h3 : st.namematch.countP (isFullViolFor n ∘ fun m => PViol.notPresentName m) = 0 := by
    rw [List.countP_eq_zero]
    intro e _
    simp [isFullViolFor, Function.comp]
  omega

theorem finalViols_count_ver (st : PnpState) (n : String) :
    (finalViols st).countP (isVerViolFor n)
      = st.out.countP (isVerViolFor n)
        + (st.vermatch.filter (fun e => e.1 = n)).length := by
  unfold finalViols
  simp only [List.countP_append, List.countP_map]
  have h1 : st.vermatch.countP (isVerViolFor n ∘ fun e => PViol.notPresentVer e.1 e.2)
      = (st.vermatch.filter (fun e => e.1 = n)).length := by
    rw [← List.countP_eq_length_filter]
    apply List.countP_congr
    intro e _
    simp [isVerViolFor, Function.comp]
  have h2 : st.fullmatch.countP (isVerViolFor n ∘ fun e => PViol.notPresentFull e.1 e.2) = 0 := by
    rw [List.countP_eq_zero]
    intro e _
    simp [isVerViolFor, Function.comp]
  have h3 : st.namematch.countP (isVerViolFor n ∘ fun m => PViol.notPresentName m) = 0 := by
    rw [List.countP_eq_zero]
    intro e _
    simp [isVerViolFor, Function.comp]
  omega


theorem key_mem_map_fst {d : List (String × String)} {n req : String}
    (h : dictGet d n = some req) : n ∈ d.map Prod.fst := by
  unfold dictGet at h
  cases hf : d.find? (fun e => e.1 = n) with
  | none => rw [hf] at h; cases h
  | some e =>
    have he1 : e.1 = n := by simpa using List.find?_some hf
    have hmem : e ∈ d := List.mem_of_find?_eq_some hf
    rw [← he1]
    exact List.mem_map_of_mem _ hmem

theorem middle_names {l1 l2 : List Package} {p : Package} {pl : List Package}
    (hpl : pl = l1 ++ p :: l2) (hnd : (pl.map Package.name).Nodup) :
    (∀ q ∈ l1, q.name ≠ p.name) ∧ (∀ q ∈ l2, q.name ≠ p.name) := by
  subst hpl
  simp only [List.map_append, List.map_cons, List.nodup_append, List.nodup_cons] at hnd
  obtain ⟨-, ⟨hp2, -⟩, hdisj⟩ := hnd
  constructor
  · intro q hq hqe
    exact hdisj (List.mem_map_of_mem _ hq) (by rw [hqe]; exact List.mem_cons_self _ _)
  · intro q hq hqe
    exact hp2 (by rw [← hqe]; exact List.mem_map_of_mem _ hq)

theorem evaluatePkgNotPresent_ok_decomp (cmp : Comparator) (image : Image)
    (fullmatch : List (String × String)) (namematch : List String)
    (vermatch : List (String × String)) (out : List PViol)
    (hok : evaluatePkgNotPresent cmp image fullmatch namematch vermatch = Except.ok out)
    (hne : fullmatch.map Prod.fst ++ namematch ++ vermatch.map Prod.fst ≠ []) :
    ∃ st3, pnpLoop cmp (image.packages.filter (fun p =>
        decide (p.name ∈ fullmatch.map Prod.fst ++ namematch ++ vermatch.map Prod.fst)))
        ⟨fullmatch, namematch, vermatch, []⟩ = Except.ok st3 ∧ out = finalViols st3 := by
  unfold evaluatePkgNotPresent at hok
  rw [if_neg hne] at hok
  cases hl : pnpLoop cmp (image.packages.filter (fun p =>
      decide (p.name ∈ fullmatch.map Prod.fst ++ namematch ++ vermatch.map Prod.fst)))
      ⟨fullmatch, namematch, vermatch, []⟩ with
  | error e => rw [hl] at hok; cases hok
  | ok st3 =>
    rw [hl] at hok
    exact ⟨st3, rfl, (Except.ok.inj hok).symm⟩


/-- C5: for a name required at an exact full version by `PKGFULLMATCH`: an
installed package of that name at the required fullversion produces no
exact-match violation for the name; at a different fullversion exactly one
wrong-version violation naming the installed and required versions; and if no
package of that name is installed, exactly one not-present violation.
Assumes the one-installed-version-per-name and unique-dict-key invariants. -/
theorem pkgfullmatch_exact_match (cmp : Comparator) (image : Image)
    (fullmatch : List (String × String)) (namematch : List String)
    (vermatch : List (String × String)) (n req : String) (out : List PViol)
    (hnodup : (image.packages.map Package.name).Nodup)
    (hkeys : (fullmatch.map Prod.fst).Nodup)
    (hget : dictGet fullmatch n = some req)
    (hok : evaluatePkgNotPresent cmp image fullmatch namematch vermatch = Except.ok out) :
    (∀ p ∈ image.packages, p.name = n →
      (p.fullversion = req → out.countP (isFullViolFor n) = 0) ∧
      (p.fullversion ≠ req →
        out.countP (isFullViolFor n) = 1 ∧ PViol.wrongVersion n p.fullversion req ∈ out)) ∧
    ((∀ p ∈ image.packages, p.name ≠ n) →
      out.countP (isFullViolFor n) = 1 ∧ PViol.notPresentFull n req ∈ out) := by
  have hnmem : n ∈ fullmatch.map Prod.fst := key_mem_map_fst hget
  have hnnames : n ∈ fullmatch.map Prod.fst ++ namematch ++ vermatch.map Prod.fst :=
    List.mem_append_left _ (List.mem_append_left _ hnmem)
  obtain ⟨st3, hloop, hout⟩ := evaluatePkgNotPresent_ok_decomp cmp image fullmatch
    namematch vermatch out hok (List.ne_nil_of_mem hnnames)
  have hfull0 : (PnpState.mk fullmatch namematch vermatch []).fullmatch.filter
      (fun e => e.1 = n) = [(n, req)] := filter_of_nodup_dictGet hkeys hget
  constructor
  · intro p hp hpn
    have hppl : p ∈ image.packages.filter (fun p =>
        decide (p.name ∈ fullmatch.map Prod.fst ++ namematch ++ vermatch.map Prod.fst)) :=
      List.mem_filter.mpr ⟨hp, by rw [hpn]; simpa using hnnames⟩
    obtain ⟨l1, l2, hpl⟩ := List.append_of_mem hppl
    have hplnd : ((image.packages.filter (fun p =>
        decide (p.name ∈ fullmatch.map Prod.fst ++ namematch ++ vermatch.map Prod.fst))).map
        Package.name).Nodup :=
      hnodup.sublist ((List.filter_sublist image.packages).map Package.name)
    obtain ⟨hall1, hall2⟩ := middle_names hpl hplnd
    rw [hpl] at hloop
    obtain ⟨st1, hl1, hrest⟩ := pnpLoop_append_ok cmp l1 (p :: l2) _ st3 hloop
    obtain ⟨hfil1, hcnt1⟩ := pnpLoop_full_other cmp l1 _ st1 n
      (fun q hq => by rw [← hpn]; exact hall1 q hq) hl1
    cases hs : pnpStep cmp st1 p with
    | error e => rw [pnpLoop_cons_err cmp p l2 st1 e hs] at hrest; cases hrest
    | ok st2 =>
      rw [pnpLoop_cons_ok cmp p l2 st1 st2 hs] at hrest
      have hget1 : dictGet st1.fullmatch n = some req :=
        dictGet_eq_of_filter (by rw [hfil1]; exact hfull0)
      obtain ⟨hfil2, hhitne, hhiteq⟩ := pnpStep_full_hit cmp st1 st2 p n req hpn hget1 hs
      obtain ⟨hfil3, hcnt3⟩ := pnpLoop_full_resolved cmp l2 st2 st3 n hfil2 hrest
      rw [hout, finalViols_count_full, hfil3]
      constructor
      · intro heq
        rw [hcnt3, hhiteq heq, hcnt1]
        simp
      · intro hne
        obtain ⟨hc2, hmem2⟩ := hhitne hne
        refine ⟨by rw [hcnt3, hc2, hcnt1]; simp, ?_⟩
        obtain ⟨l3, hl3⟩ := pnpLoop_out_append cmp l2 st2 st3 hrest
        unfold finalViols
        exact List.mem_append_left _ (List.mem_append_left _ (List.mem_append_left _
          (by rw [hl3]; exact List.mem_append_left _ hmem2)))
  · intro habs
    obtain ⟨hfil3, hcnt3⟩ := pnpLoop_full_other cmp _ _ st3 n
      (fun q hq => habs q (List.mem_of_mem_filter hq)) hloop
    rw [hout, finalViols_count_full, hfil3, hfull0, hcnt3]
    refine ⟨by simp, ?_⟩
    have hmemfm : (n, req) ∈ st3.fullmatch := by
      apply List.mem_of_mem_filter (p := fun e => decide (e.1 = n))
      rw [hfil3, hfull0]
      exact List.mem_singleton.mpr rfl
    unfold finalViols
    exact List.mem_append_left _ (List.mem_append_left _ (List.mem_append_right _
      (List.mem_map_of_mem _ hmemfm)))


/-- C6: for a name with a `PKGVERSMATCH` minimum whose package is installed:
no min-version violation when the installed fullversion equals the minimum;
otherwise the comparator is consulted on the package's `version`, and exactly
one below-minimum violation naming both versions fires when it reports
negative, none when it reports `≥ 0`. -/
theorem pkgversmatch_min_version (cmp : Comparator) (image : Image)
    (fullmatch : List (String × String)) (namematch : List String)
    (vermatch : List (String × String)) (n req : String) (p : Package) (c : Int)
    (out : List PViol)
    (hnodup : (image.packages.map Package.name).Nodup)
    (hkeys : (vermatch.map Prod.fst).Nodup)
    (hget : dictGet vermatch n = some req)
    (hp : p ∈ image.packages) (hpn : p.name = n)
    (hok : evaluatePkgNotPresent cmp image fullmatch namematch vermatch = Except.ok out) :
    (p.fullversion = req → out.countP (isVerViolFor n) = 0) ∧
    (p.fullversion ≠ req → cmp p.flavor p.name p.version p.name req = Except.ok c →
      ((c < 0 →
        out.countP (isVerViolFor n) = 1 ∧ PViol.belowMin n p.fullversion req ∈ out) ∧
       (0 ≤ c → out.countP (isVerViolFor n) = 0))) := by
  have hnmem : n ∈ vermatch.map Prod.fst := key_mem_map_fst hget
  have hnnames : n ∈ fullmatch.map Prod.fst ++ namematch ++ vermatch.map Prod.fst :=
    List.mem_append_right _ hnmem
  obtain ⟨st3, hloop, hout⟩ := evaluatePkgNotPresent_ok_decomp cmp image fullmatch
    namematch vermatch out hok (List.ne_nil_of_mem hnnames)
  have hver0 : (PnpState.mk fullmatch namematch vermatch []).vermatch.filter
      (fun e => e.1 = n) = [(n, req)] := filter_of_nodup_dictGet hkeys hget
  have hppl : p ∈ image.packages.filter (fun p =>
      decide (p.name ∈ fullmatch.map Prod.fst ++ namematch ++ vermatch.map Prod.fst)) :=
    List.mem_filter.mpr ⟨hp, by rw [hpn]; simpa using hnnames⟩
  obtain ⟨l1, l2, hpl⟩ := List.append_of_mem hppl
  have hplnd : ((image.packages.filter (fun p =>
      decide (p.name ∈ fullmatch.map Prod.fst ++ namematch ++ vermatch.map Prod.fst))).map
      Package.name).Nodup :=
    hnodup.sublist ((List.filter_sublist image.packages).map Package.name)
  obtain ⟨hall1, hall2⟩ := middle_names hpl hplnd
  rw [hpl] at hloop
  obtain ⟨st1, hl1, hrest⟩ := pnpLoop_append_ok cmp l1 (p :: l2) _ st3 hloop
  obtain ⟨hfil1, hcnt1⟩ := pnpLoop_ver_other cmp l1 _ st1 n
    (fun q hq => by rw [← hpn]; exact hall1 q hq) hl1
  cases hs : pnpStep cmp st1 p with
  | error e => rw [pnpLoop_cons_err cmp p l2 st1 e hs] at hrest; cases hrest
  | ok st2 =>
    rw [pnpLoop_cons_ok cmp p l2 st1 st2 hs] at hrest
    have hget1 : dictGet st1.vermatch n = some req :=
      dictGet_eq_of_filter (by rw [hfil1]; exact hver0)
    obtain ⟨hfil2, hhiteq, hhitne⟩ := pnpStep_ver_hit cmp st1 st2 p n req c hpn hget1 hs
    obtain ⟨hfil3, hcnt3⟩ := pnpLoop_ver_resolved cmp l2 st2 st3 n hfil2 hrest
    rw [hout, finalViols_count_ver, hfil3]
    constructor
    · intro heq
      rw [hcnt3, hhiteq heq, hcnt1]
      simp
    · intro hne hcmp
      obtain ⟨hlt, hge⟩ := hhitne hne hcmp
      constructor
      · intro hcl
        obtain ⟨hc2, hmem2⟩ := hlt hcl
        refine ⟨by rw [hcnt3, hc2, hcnt1]; simp, ?_⟩
        obtain ⟨l3, hl3⟩ := pnpLoop_out_append cmp l2 st2 st3 hrest
        unfold finalViols
        exact List.mem_append_left _ (List.mem_append_left _ (List.mem_append_left _
          (by rw [hl3]; exact List.mem_append_left _ hmem2)))
      · intro hcge
        rw [hcnt3, hge (by omega), hcnt1]
        simp


theorem dictGet_mem {d : List (String × String)} {k v : String}
    (h : dictGet d k = some v) : (k, v) ∈ d := by
  unfold dictGet at h
  cases hf : d.find? (fun e => e.1 = k) with
  | none => rw [hf] at h; cases h
  | some e =>
    rw [hf] at h
    have h1 : e.1 = k := by simpa using List.find?_some hf
    have h2 : e.2 = v := by simpa using h
    have hm := List.mem_of_find?_eq_some hf
    rwa [show (k, v) = e from (Prod.ext h1 h2).symm]

theorem pnpStep_vermatch_sublist (cmp : Comparator) (st st' : PnpState) (p : Package)
    (h : pnpStep cmp st p = Except.ok st') : st'.vermatch.Sublist st.vermatch := by
  unfold pnpStep at h
  have hf1 : (stepFull st p).vermatch = st.vermatch := (stepFull_ver st p "").1
  have hm2 : (stepName (stepFull st p) p).vermatch = (stepFull st p).vermatch :=
    (stepName_all (stepFull st p) p).2.1
  unfold stepVer at h
  rcases hd : dictGet (stepName (stepFull st p) p).vermatch p.name with _ | req <;>
    rw [hd] at h
  · cases h
    rw [hm2, hf1]
  · dsimp only at h
    by_cases hv : p.fullversion ≠ req
    · rw [if_pos hv] at h
      rcases hc : cmp p.flavor p.name p.version p.name req with e | c <;> rw [hc] at h
      · cases h
      · by_cases hcl : c < 0
        · simp only [if_pos hcl] at h
          cases h
          dsimp only [dictPop]
          rw [hm2, hf1]
          exact List.filter_sublist _
        · simp only [if_neg hcl] at h
          cases h
          dsimp only [dictPop]
          rw [hm2, hf1]
          exact List.filter_sublist _
    · rw [if_neg hv] at h
      cases h
      dsimp only [dictPop]
      rw [hm2, hf1]
      exact List.filter_sublist _

theorem pnpLoop_vermatch_sublist (cmp : Comparator) (ps : List Package) (st st' : PnpState)
    (h : pnpLoop cmp ps st = Except.ok st') : st'.vermatch.Sublist st.vermatch := by
  induction ps generalizing st with
  | nil => cases h; exact List.Sublist.refl _
  | cons p ps ih =>
    cases hs : pnpStep cmp st p with
    | error e => rw [pnpLoop_cons_err cmp p ps st e hs] at h; cases h
    | ok st1 =>
      rw [pnpLoop_cons_ok cmp p ps st st1 hs] at h
      exact (ih st1 h).trans (pnpStep_vermatch_sublist cmp st st1 p hs)

/-- C8 (amended): a comparator failure on a reached min-version comparison is
not caught: it aborts the whole trigger evaluation with the error, so no
violation sequence at all is returned — not merely that one comparison. -/
theorem cmp_error_aborts_trigger (cmp : Comparator) (image : Image)
    (fullmatch : List (String × String)) (namematch : List String)
    (vermatch : List (String × String)) (l1 : List Package) (p : Package)
    (l2 : List Package) (st1 : PnpState) (req : String)
    (hpl : image.packages.filter (fun q =>
        decide (q.name ∈ fullmatch.map Prod.fst ++ namematch ++ vermatch.map Prod.fst))
        = l1 ++ p :: l2)
    (hloop1 : pnpLoop cmp l1 ⟨fullmatch, namematch, vermatch, []⟩ = Except.ok st1)
    (hget : dictGet st1.vermatch p.name = some req)
    (hne : p.fullversion ≠ req)
    (herr : cmp p.flavor p.name p.version p.name req = Except.error ()) :
    evaluatePkgNotPresent cmp image fullmatch namematch vermatch = Except.error () := by
  have hkey : (p.name, req) ∈ st1.vermatch := dictGet_mem hget
  have hkey2 : (p.name, req) ∈ vermatch :=
    (pnpLoop_vermatch_sublist cmp l1 _ st1 hloop1).subset hkey
  have hnmem : p.name ∈ fullmatch.map Prod.fst ++ namematch ++ vermatch.map Prod.fst :=
    List.mem_append_right _ (List.mem_map_of_mem Prod.fst hkey2)
  have hstep : pnpStep cmp st1 p = Except.error () := by
    unfold pnpStep stepVer
    rw [(stepName_all (stepFull st1 p) p).2.1, (stepFull_ver st1 p "").1, hget]
    dsimp only
    rw [if_pos hne, herr]
  unfold evaluatePkgNotPresent
  rw [if_neg (List.ne_nil_of_mem hnmem), hpl,
    pnpLoop_append_error cmp l1 p l2 _ st1 hloop1 hstep]

/-- C8 counterexample: the comparator fails on zlib's min-version comparison
while a second required entry (curl, not installed) should still yield its
not-present violation per the claim; instead the entire evaluation returns an
error and no violations. -/
theorem cmp_error_aborts_counterexample :
    evaluatePkgNotPresent (fun _ _ _ _ _ => Except.error ())
      (Image.mk [] [Package.mk "zlib" "1.2.3" "1.2.3-r0" "rpm" []]) [] []
      [("zlib", "1.2.8"), ("curl", "7.0")] = Except.error () := rfl


theorem pkgfullmatch_exact_match_witness :
    dictGet [("zlib", "9")] "zlib" = some "9" ∧
    (([PViol.wrongVersion "zlib" "1.2.3-r0" "9"]).countP (isFullViolFor "zlib") = 1 ∧
      PViol.wrongVersion "zlib" "1.2.3-r0" "9" ∈ [PViol.wrongVersion "zlib" "1.2.3-r0" "9"]) :=
  ⟨rfl, ((pkgfullmatch_exact_match (fun _ _ _ _ _ => Except.ok 0)
      (Image.mk [] [Package.mk "zlib" "1.2.3" "1.2.3-r0" "rpm" []])
      [("zlib", "9")] [] [] "zlib" "9" [PViol.wrongVersion "zlib" "1.2.3-r0" "9"]
      (by decide) (by decide) rfl rfl).1
      (Package.mk "zlib" "1.2.3" "1.2.3-r0" "rpm" []) (by decide) rfl).2 (by decide)⟩

theorem pkgversmatch_min_version_witness :
    dictGet [("zlib", "1.2.8")] "zlib" = some "1.2.8" ∧
    (([PViol.belowMin "zlib" "1.2.3-r0" "1.2.8"]).countP (isVerViolFor "zlib") = 1 ∧
      PViol.belowMin "zlib" "1.2.3-r0" "1.2.8" ∈ [PViol.belowMin "zlib" "1.2.3-r0" "1.2.8"]) :=
  ⟨rfl, ((pkgversmatch_min_version (fun _ _ _ _ _ => Except.ok (-1))
      (Image.mk [] [Package.mk "zlib" "1.2.3" "1.2.3-r0" "rpm" []]) [] []
      [("zlib", "1.2.8")] "zlib" "1.2.8"
      (Package.mk "zlib" "1.2.3" "1.2.3-r0" "rpm" []) (-1)
      [PViol.belowMin "zlib" "1.2.3-r0" "1.2.8"]
      (by decide) (by decide) rfl (by decide) rfl rfl).2 (by decide) rfl).1 (by decide)⟩

theorem cmp_error_aborts_trigger_witness :
    ("1.2.3-r0" : String) ≠ "1.2.8" ∧
    evaluatePkgNotPresent (fun _ _ _ _ _ => Except.error ())
      (Image.mk [] [Package.mk "zlib" "1.2.3" "1.2.3-r0" "rpm" []]) [] []
      [("zlib", "1.2.8")] = Except.error () :=
  ⟨by decide, cmp_error_aborts_trigger (fun _ _ _ _ _ => Except.error ())
    (Image.mk [] [Package.mk "zlib" "1.2.3" "1.2.3-r0" "rpm" []]) [] []
    [("zlib", "1.2.8")] [] (Package.mk "zlib" "1.2.3" "1.2.3-r0" "rpm" []) []
    ⟨[], [], [("zlib", "1.2.8")], []⟩ "1.2.8" rfl rfl rfl (by decide) rfl⟩


end CheckPackageInfo
